import Mathlib

/-!
Formal model of the SPDK accel engine framework
(src/lib/accel/accel_engine.c): module registry, hardware/software
engine selection, per-thread channel binding, the dispatcher's
completion-callback trampoline, the built-in software backend, and the
sequential module-finalization walk.

Byte memory is modelled as a total function from addresses (Nat) to
byte values; `memcpy`, `memset` and `memcmp` are the C library
primitives the software backend calls.  Caller completion callbacks
are identified by a Nat id; an invocation of a caller callback is
recorded as an `Event` so that "invoked exactly once, with this task
and status" is a statement about the produced event list.
-/

/-- Byte-addressed memory: address to byte value. -/
def Mem : Type := Nat → Nat

/-- C library memcpy over the memory model: copies `n` bytes from
`src` to `dst`, reading the pre-state (callers pass non-overlapping
regions, as C requires). -/
def memcpy (m : Mem) (dst src n : Nat) : Mem :=
  fun a => if dst ≤ a ∧ a < dst + n then m (src + (a - dst)) else m a

/-- C library memset over the memory model: sets `n` bytes at `dst` to `c`. -/
def memset (m : Mem) (dst c n : Nat) : Mem :=
  fun a => if dst ≤ a ∧ a < dst + n then c else m a

/-- C library memcmp over the memory model: three-way comparison of the
first `n` bytes at `s1` and `s2` (negative / zero / positive). -/
def memcmpI (m : Mem) : Nat → Nat → Nat → Int
  | _, _, 0 => 0
  | s1, s2, n + 1 =>
    if m s1 < m s2 then -1
    else if m s2 < m s1 then 1
    else memcmpI m (s1 + 1) (s2 + 1) n

/-- Model of `struct spdk_accel_task`: the caller-owned request context.  `cb` is
the caller completion callback the dispatcher stores (identified by a
Nat id); `ctx` stands for the rest of the caller's context (it makes
distinct tasks distinguishable).  The C code recovers the task from its
`offload_ctx` member by pointer arithmetic; in the model the backend is
handed the task itself. -/
structure AccelTask where
  cb : Nat
  ctx : Nat
deriving DecidableEq, Repr

/-- One invocation of a caller completion callback: which callback, with
which task pointer and which status. -/
structure Event where
  cbId : Nat
  task : AccelTask
  status : Int
deriving DecidableEq, Repr

/-- The completion-callback type a backend receives
(`spdk_accel_completion_cb`): invoking it with a task and status yields
the caller-callback invocations it causes. -/
def Cb : Type := AccelTask → Int → List Event

/-- Model of `_accel_engine_done`: the framework trampoline.  Reads the callback
the dispatcher stored in the task and invokes it with the same task and
status. -/
def accel_engine_done : Cb :=
  fun req status => [⟨req.cb, req, status⟩]

/-- Value of `EINVAL` (invalid argument). -/
def EINVAL : Int := 22

/-- Value of `ALIGN_4K` (0x1000). -/
def ALIGN_4K : Nat := 4096

/-- Model of `struct spdk_accel_engine`: the backend operation table the channel
binds to.  Each operation takes the task recovered from `cb_arg`, the
relevant state, its arguments and the completion callback, and returns
the new state, the caller-callback invocations performed, and the
submit's own return value.  (`get_capabilities`, `get_io_channel` and
the unimplemented batch entry points are modelled separately.) -/
structure Engine where
  copy : AccelTask → Mem → Nat → Nat → Nat → Cb → Mem × List Event × Int
  dualcast : AccelTask → Mem → Nat → Nat → Nat → Nat → Cb → Mem × List Event × Int
  compare : AccelTask → Mem → Nat → Nat → Nat → Cb → Mem × List Event × Int
  fill : AccelTask → Mem → Nat → Nat → Nat → Cb → Mem × List Event × Int
  crc32c : AccelTask → (Nat → Nat) → Mem → Nat → Nat → Nat → Nat → Cb → (Nat → Nat) × List Event × Int

/-- Model of `spdk_accel_submit_copy`: stores the caller callback in the task and
forwards to the bound engine's `copy` with the trampoline. -/
def spdk_accel_submit_copy (eng : Engine) (accel_req : AccelTask) (mem : Mem)
    (dst src nbytes : Nat) (cb : Nat) : Mem × List Event × Int :=
  eng.copy { accel_req with cb := cb } mem dst src nbytes accel_engine_done

/-- Model of `spdk_accel_submit_dualcast`: validates 4K alignment of both
destinations (rejecting with `-EINVAL` before any effect), then stores
the caller callback and forwards with the trampoline. -/
def spdk_accel_submit_dualcast (eng : Engine) (accel_req : AccelTask) (mem : Mem)
    (dst1 dst2 src nbytes : Nat) (cb : Nat) : Mem × List Event × Int :=
  if dst1 % ALIGN_4K ≠ 0 ∨ dst2 % ALIGN_4K ≠ 0 then
    (mem, [], -EINVAL)
  else
    eng.dualcast { accel_req with cb := cb } mem dst1 dst2 src nbytes accel_engine_done

/-- Model of `spdk_accel_submit_compare`. -/
def spdk_accel_submit_compare (eng : Engine) (accel_req : AccelTask) (mem : Mem)
    (src1 src2 nbytes : Nat) (cb : Nat) : Mem × List Event × Int :=
  eng.compare { accel_req with cb := cb } mem src1 src2 nbytes accel_engine_done

/-- Model of `spdk_accel_submit_fill`. -/
def spdk_accel_submit_fill (eng : Engine) (accel_req : AccelTask) (mem : Mem)
    (dst fillv nbytes : Nat) (cb : Nat) : Mem × List Event × Int :=
  eng.fill { accel_req with cb := cb } mem dst fillv nbytes accel_engine_done

/-- Model of `spdk_accel_submit_crc32c`: the `dst` output cell holds a 32-bit
word, modelled as a separate word store. -/
def spdk_accel_submit_crc32c (eng : Engine) (accel_req : AccelTask) (words : Nat → Nat)
    (mem : Mem) (dst src seed nbytes : Nat) (cb : Nat) : (Nat → Nat) × List Event × Int :=
  eng.crc32c { accel_req with cb := cb } words mem dst src seed nbytes accel_engine_done

/-- Bitwise complement on a 32-bit value (`~seed` at `uint32_t`). -/
def complement32 (s : Nat) : Nat := (2 ^ 32 - 1) - s % 2 ^ 32

/-- The reflected CRC32C (Castagnoli) polynomial. -/
def crc32c_poly : Nat := 0x82F63B78

/-- One bit step of the reflected CRC32C shift register. -/
def crc32c_shift (c : Nat) : Nat :=
  if c % 2 = 1 then (c / 2) ^^^ crc32c_poly else c / 2

/-- Folding one input byte into the running CRC32C value. -/
def crc32c_byte (crc b : Nat) : Nat :=
  crc32c_shift^[8] (crc ^^^ b % 256)

/-- Modelled from the spec: `spdk_crc32c_update` (the CRC32C library
routine, declared in spdk/crc32.h and not part of src/) computes the
CRC32C over the `n` bytes at `src`, starting from the caller-supplied
running value `crc`.  The spec states the algorithm itself is out of
scope ("used, not implemented"); the standard bitwise reflected CRC32C
stands in for it. -/
def spdk_crc32c_update (m : Mem) : Nat → Nat → Nat → Nat
  | _, 0, crc => crc
  | src, n + 1, crc => spdk_crc32c_update m (src + 1) n (crc32c_byte crc (m src % 256))

/-- Model of `sw_accel_submit_copy`: memcpy then complete in-line with status 0;
returns 0. -/
def sw_accel_submit_copy (cb_arg : AccelTask) (mem : Mem) (dst src nbytes : Nat)
    (cb : Cb) : Mem × List Event × Int :=
  (memcpy mem dst src nbytes, cb cb_arg 0, 0)

/-- Model of `sw_accel_submit_dualcast`: memcpy into `dst1` then into `dst2`,
complete in-line with status 0; returns 0. -/
def sw_accel_submit_dualcast (cb_arg : AccelTask) (mem : Mem) (dst1 dst2 src nbytes : Nat)
    (cb : Cb) : Mem × List Event × Int :=
  (memcpy (memcpy mem dst1 src nbytes) dst2 src nbytes, cb cb_arg 0, 0)

/-- Model of `sw_accel_submit_compare`: memcmp, complete in-line with the
comparison result as the status; returns 0. -/
def sw_accel_submit_compare (cb_arg : AccelTask) (mem : Mem) (src1 src2 nbytes : Nat)
    (cb : Cb) : Mem × List Event × Int :=
  (mem, cb cb_arg (memcmpI mem src1 src2 nbytes), 0)

/-- Model of `sw_accel_submit_fill`: memset, complete in-line with status 0;
returns 0. -/
def sw_accel_submit_fill (cb_arg : AccelTask) (mem : Mem) (dst fillv nbytes : Nat)
    (cb : Cb) : Mem × List Event × Int :=
  (memset mem dst fillv nbytes, cb cb_arg 0, 0)

/-- Model of `sw_accel_submit_crc32c`: writes `spdk_crc32c_update(src, nbytes,
~seed)` to the output word, completes in-line with status 0; returns 0. -/
def sw_accel_submit_crc32c (cb_arg : AccelTask) (words : Nat → Nat) (mem : Mem)
    (dst src seed nbytes : Nat) (cb : Cb) : (Nat → Nat) × List Event × Int :=
  (fun a => if a = dst then spdk_crc32c_update mem src nbytes (complement32 seed) else words a,
   cb cb_arg 0, 0)

/-- Model of `sw_accel_engine`: the built-in software backend's operation table. -/
def sw_accel_engine : Engine where
  copy := sw_accel_submit_copy
  dualcast := sw_accel_submit_dualcast
  compare := sw_accel_submit_compare
  fill := sw_accel_submit_fill
  crc32c := sw_accel_submit_crc32c

/-- A registered engine as seen by the selection globals
(`g_hw_accel_engine` / `g_sw_accel_engine`): its identity and the
result of its `get_io_channel()` (`none` models a NULL return). -/
structure EngineRef where
  id : Nat
  get_io_channel : Option Nat
deriving DecidableEq, Repr

/-- Model of `struct accel_io_channel`: the per-thread channel, pairing the
chosen engine with that engine's channel handle. -/
structure accel_io_channel where
  engine : EngineRef
  ch : Nat
deriving DecidableEq, Repr

/-- The software-fallback tail of `accel_engine_create_cb`: dereference
`g_sw_accel_engine` (a NULL software engine is a fatal precondition
violation, modelled as `none`), request its channel, and require it
non-null (`assert(accel_ch->ch != NULL)`). -/
def accel_engine_create_sw_path : Option EngineRef → Option accel_io_channel
  | none => none
  | some sw =>
    match sw.get_io_channel with
    | some ch => some ⟨sw, ch⟩
    | none => none

/-- Model of `accel_engine_create_cb`: if a hardware engine is registered and its
channel request succeeds, bind to hardware; otherwise fall back to the
software engine. -/
def accel_engine_create_cb (g_hw g_sw : Option EngineRef) : Option accel_io_channel :=
  match g_hw with
  | some hw =>
    match hw.get_io_channel with
    | some ch => some ⟨hw, ch⟩
    | none => accel_engine_create_sw_path g_sw
  | none => accel_engine_create_sw_path g_sw

/-- The per-thread channel cache of the io-channel runtime. -/
structure ThreadChannelState where
  cached : Option accel_io_channel
deriving DecidableEq, Repr

/-- Modelled from the spec: `spdk_get_io_channel` (the thread/channel
runtime, not part of src/) lazily creates the calling thread's channel
via `accel_engine_create_cb` on first use and returns the cached channel
on every later call, never re-running creation. -/
def get_channel (st : ThreadChannelState) (g_hw g_sw : Option EngineRef) :
    Option (ThreadChannelState × accel_io_channel) :=
  match st.cached with
  | some ch => some (st, ch)
  | none =>
    match accel_engine_create_cb g_hw g_sw with
    | some ch => some (⟨some ch⟩, ch)
    | none => none

/-- Model of `spdk_accel_hw_engine_register`: first registrant takes the hardware
slot; a later call leaves the slot unchanged and logs a notice (the
returned Bool records that the notice was logged; no error is raised). -/
def spdk_accel_hw_engine_register (g_hw : Option EngineRef) (e : EngineRef) :
    Option EngineRef × Bool :=
  match g_hw with
  | none => (some e, false)
  | some h => (some h, true)

/-- The hardware slot after a sequence of registration calls, starting
from the empty slot. -/
def hw_register_all (es : List EngineRef) : Option EngineRef :=
  es.foldl (fun g e => (spdk_accel_hw_engine_register g e).1) none

/-- Model of `struct spdk_accel_module_if`: a registered module descriptor.
`module_fini` records whether the module has a finalization hook;
`get_ctx_size` is `none` when the module has no context-size query
(a NULL function pointer). -/
structure ModuleIf where
  id : Nat
  module_fini : Bool
  get_ctx_size : Option Nat
deriving DecidableEq, Repr

/-- Model of `spdk_accel_module_list_add`: append the module to the global list
and raise `g_max_accel_module_size` when the module reports a larger
context size.  State is (module list, cached max size). -/
def spdk_accel_module_list_add (st : List ModuleIf × Nat) (m : ModuleIf) :
    List ModuleIf × Nat :=
  (st.1 ++ [m],
   match m.get_ctx_size with
   | some sz => if st.2 < sz then sz else st.2
   | none => st.2)

/-- The registry state after registering the given modules in order,
starting from the empty registry. -/
def registerModules (ms : List ModuleIf) : List ModuleIf × Nat :=
  ms.foldl spdk_accel_module_list_add ([], 0)

/-- Model of `spdk_accel_task_size`: returns the cached largest context size. -/
def spdk_accel_task_size (st : List ModuleIf × Nat) : Nat := st.2

/-- Observable events of the finalization walk: a module's fini hook
being invoked, or the final completion callback firing
(`accel_engine_module_finish_cb` calling `g_fini_cb_fn`). -/
inductive FiniEvent where
  | fini_hook : Nat → FiniEvent
  | final_cb : FiniEvent
deriving DecidableEq, Repr

/-- One entry into `spdk_accel_engine_module_finish`, given the module
list from the advanced cursor onward (`TAILQ_FIRST` on the first entry,
`TAILQ_NEXT` afterwards).  Past the end it fires the final completion
callback; at a module with a fini hook it invokes the hook (sending it
to the thread) and parks the cursor there; at a module without one it
immediately re-advances synchronously. -/
def module_finish_step : List ModuleIf → Option (ModuleIf × List ModuleIf) × List FiniEvent
  | [] => (none, [FiniEvent.final_cb])
  | m :: rest =>
    if m.module_fini then (some (m, rest), [FiniEvent.fini_hook m.id])
    else module_finish_step rest

theorem module_finish_step_length {l : List ModuleIf} {m : ModuleIf}
    {rest : List ModuleIf} {evs : List FiniEvent}
    (h : module_finish_step l = (some (m, rest), evs)) : rest.length < l.length := by
  induction l with
  | nil => simp [module_finish_step] at h
  | cons a t ih =>
    by_cases hf : a.module_fini
    · simp only [module_finish_step, if_pos hf, Prod.mk.injEq, Option.some.injEq] at h
      obtain ⟨⟨rfl, rfl⟩, -⟩ := h
      simp
    · simp only [module_finish_step, if_neg hf] at h
      exact Nat.lt_trans (ih h) (by simp)

/-- The complete event trace of finalization from the given cursor
suffix, under the contract that every invoked fini hook eventually
completes and re-enters `spdk_accel_engine_module_finish` (which then
advances past the parked cursor). -/
def module_finish_run (l : List ModuleIf) : List FiniEvent :=
  match h : module_finish_step l with
  | (none, evs) => evs
  | (some (_, rest), evs) => evs ++ module_finish_run rest
termination_by l.length
decreasing_by exact module_finish_step_length h

/-- The full finalization trace started by `spdk_accel_engine_finish`
(cursor initially NULL, so the first entry starts at the list head). -/
def spdk_accel_engine_finish_trace (mods : List ModuleIf) : List FiniEvent :=
  module_finish_run mods

theorem foldl_hw_register_occupied (h : EngineRef) (es : List EngineRef) :
    es.foldl (fun g e => (spdk_accel_hw_engine_register g e).1) (some h) = some h := by
  induction es with
  | nil => rfl
  | cons e t ih => simpa [spdk_accel_hw_engine_register] using ih

/-- Claim C8: the first hardware-backend registration occupies the slot;
every later registration is a soft no-op (a logged notice, no fault)
that leaves the first registrant bound. -/
theorem c8_hw_register_first_wins :
    (∀ es : List EngineRef, hw_register_all es = es.head?)
    ∧ (∀ h e : EngineRef, spdk_accel_hw_engine_register (some h) e = (some h, true))
    ∧ (∀ e : EngineRef, spdk_accel_hw_engine_register none e = (some e, false)) := by
  refine ⟨?_, fun h e => rfl, fun e => rfl⟩
  intro es
  cases es with
  | nil => rfl
  | cons e t =>
    simpa [hw_register_all, spdk_accel_hw_engine_register]
      using foldl_hw_register_occupied e t

theorem ite_lt_eq_max (s sz : Nat) : (if s < sz then sz else s) = max s sz := by
  rcases Nat.lt_or_ge s sz with h | h
  · rw [if_pos h, Nat.max_eq_right (Nat.le_of_lt h)]
  · rw [if_neg (Nat.not_lt.mpr h), Nat.max_eq_left h]

theorem module_list_add_size (l : List ModuleIf) (s : Nat) (m : ModuleIf) :
    spdk_accel_module_list_add (l, s) m = (l ++ [m], max s (m.get_ctx_size.getD 0)) := by
  unfold spdk_accel_module_list_add
  cases m.get_ctx_size with
  | none => simp
  | some sz => simp [ite_lt_eq_max]

theorem foldl_module_size (ms : List ModuleIf) : ∀ (l : List ModuleIf) (s : Nat),
    (ms.foldl spdk_accel_module_list_add (l, s)).2
      = ms.foldl (fun a m => max a (m.get_ctx_size.getD 0)) s := by
  induction ms with
  | nil => intro l s; rfl
  | cons m t ih =>
    intro l s
    simp only [List.foldl_cons, module_list_add_size]
    exact ih _ _

/-- Claim C9 (amended): after every registration sequence, task_size
equals the maximum context size reported across all registered modules
(0 when none reports one), and registering a further module never
decreases it; the cached size is not fixed after the first non-zero
report — a later, larger report still raises it. -/
theorem c9_task_size_is_max :
    (∀ ms : List ModuleIf,
      spdk_accel_task_size (registerModules ms)
        = ms.foldl (fun a m => max a (m.get_ctx_size.getD 0)) 0)
    ∧ (∀ (ms : List ModuleIf) (m : ModuleIf),
      spdk_accel_task_size (registerModules ms)
        ≤ spdk_accel_task_size (registerModules (ms ++ [m]))) := by
  constructor
  · intro ms
    exact foldl_module_size ms [] 0
  · intro ms m
    show (registerModules ms).2 ≤ (registerModules (ms ++ [m])).2
    unfold registerModules
    rw [foldl_module_size, foldl_module_size, List.foldl_append]
    exact Nat.le_max_left _ _

/-- Claim C9 counterexample: after the first module reporting a non-zero
context size (8) registers, registering a second module reporting 16
changes the cached size from 8 to 16 — the size is not fixed after the
first non-zero registration. -/
theorem c9_size_not_fixed_counterexample :
    spdk_accel_task_size (registerModules [⟨1, false, some 8⟩]) = 8
    ∧ spdk_accel_task_size (registerModules [⟨1, false, some 8⟩, ⟨2, false, some 16⟩]) = 16
    ∧ spdk_accel_task_size (registerModules [⟨1, false, some 8⟩, ⟨2, false, some 16⟩])
        ≠ spdk_accel_task_size (registerModules [⟨1, false, some 8⟩]) := by
  refine ⟨rfl, rfl, by decide⟩

/-- Claim C1: each dispatcher submit stores the caller's completion
callback in the task context and forwards to the bound backend with the
internal trampoline in place of the caller callback (dual-cast after
its alignment check passes); and the trampoline, invoked by the backend
with a task and a status, invokes the callback stored in that task
exactly once, with that same task and that same status. -/
theorem c1_dispatcher_trampoline :
    (∀ (req : AccelTask) (s : Int), accel_engine_done req s = [⟨req.cb, req, s⟩])
    ∧ (∀ (eng : Engine) (req : AccelTask) (mem : Mem) (dst src n cb : Nat),
        spdk_accel_submit_copy eng req mem dst src n cb
          = eng.copy { req with cb := cb } mem dst src n accel_engine_done)
    ∧ (∀ (eng : Engine) (req : AccelTask) (mem : Mem) (dst1 dst2 src n cb : Nat),
        dst1 % ALIGN_4K = 0 → dst2 % ALIGN_4K = 0 →
        spdk_accel_submit_dualcast eng req mem dst1 dst2 src n cb
          = eng.dualcast { req with cb := cb } mem dst1 dst2 src n accel_engine_done)
    ∧ (∀ (eng : Engine) (req : AccelTask) (mem : Mem) (s1 s2 n cb : Nat),
        spdk_accel_submit_compare eng req mem s1 s2 n cb
          = eng.compare { req with cb := cb } mem s1 s2 n accel_engine_done)
    ∧ (∀ (eng : Engine) (req : AccelTask) (mem : Mem) (dst v n cb : Nat),
        spdk_accel_submit_fill eng req mem dst v n cb
          = eng.fill { req with cb := cb } mem dst v n accel_engine_done)
    ∧ (∀ (eng : Engine) (req : AccelTask) (words : Nat → Nat) (mem : Mem)
        (dst src seed n cb : Nat),
        spdk_accel_submit_crc32c eng req words mem dst src seed n cb
          = eng.crc32c { req with cb := cb } words mem dst src seed n accel_engine_done) := by
  refine ⟨fun req s => rfl, fun eng req mem dst src n cb => rfl, ?_,
    fun eng req mem s1 s2 n cb => rfl, fun eng req mem dst v n cb => rfl,
    fun eng req words mem dst src seed n cb => rfl⟩
  intro eng req mem dst1 dst2 src n cb h1 h2
  unfold spdk_accel_submit_dualcast
  rw [if_neg]
  simp [h1, h2]

/-- Witness for C1 at a concrete aligned input. -/
theorem c1_dispatcher_trampoline_witness :
    spdk_accel_submit_dualcast sw_accel_engine ⟨0, 0⟩ (fun _ => 0) 0 4096 5 3 7
      = sw_accel_engine.dualcast ⟨7, 0⟩ (fun _ => 0) 0 4096 5 3 accel_engine_done :=
  c1_dispatcher_trampoline.2.2.1 sw_accel_engine ⟨0, 0⟩ (fun _ => 0) 0 4096 5 3 7
    (by decide) (by decide)

/-- Claim C10: every software-backend submit function's own return value
is 0 for every input; compare in particular returns 0 from the submit
call even when the buffers differ, the comparison result travelling
only as the callback's status argument. -/
theorem c10_sw_submit_returns_zero :
    (∀ (t : AccelTask) (mem : Mem) (dst src n : Nat) (cb : Cb),
      (sw_accel_submit_copy t mem dst src n cb).2.2 = 0)
    ∧ (∀ (t : AccelTask) (mem : Mem) (dst1 dst2 src n : Nat) (cb : Cb),
      (sw_accel_submit_dualcast t mem dst1 dst2 src n cb).2.2 = 0)
    ∧ (∀ (t : AccelTask) (mem : Mem) (s1 s2 n : Nat) (cb : Cb),
      (sw_accel_submit_compare t mem s1 s2 n cb).2.2 = 0
      ∧ (sw_accel_submit_compare t mem s1 s2 n cb).1 = mem)
    ∧ (∀ (t : AccelTask) (mem : Mem) (dst v n : Nat) (cb : Cb),
      (sw_accel_submit_fill t mem dst v n cb).2.2 = 0)
    ∧ (∀ (t : AccelTask) (words : Nat → Nat) (mem : Mem) (dst src seed n : Nat) (cb : Cb),
      (sw_accel_submit_crc32c t words mem dst src seed n cb).2.2 = 0) :=
  ⟨fun _ _ _ _ _ _ => rfl, fun _ _ _ _ _ _ _ => rfl, fun _ _ _ _ _ _ => ⟨rfl, rfl⟩,
   fun _ _ _ _ _ _ => rfl, fun _ _ _ _ _ _ _ _ => rfl⟩

theorem module_finish_run_none {l : List ModuleIf} {evs : List FiniEvent}
    (h : module_finish_step l = (none, evs)) : module_finish_run l = evs := by
  rw [module_finish_run.eq_def]
  split
  · next h2 => rw [h2] at h; injection h with h3 h4
  · next m rest evs2 h2 => rw [h2] at h; simp at h

theorem module_finish_run_some {l : List ModuleIf} {m : ModuleIf}
    {rest : List ModuleIf} {evs : List FiniEvent}
    (h : module_finish_step l = (some (m, rest), evs)) :
    module_finish_run l = evs ++ module_finish_run rest := by
  rw [module_finish_run.eq_def]
  split
  · next h2 => rw [h2] at h; simp at h
  · next m2 rest2 evs2 h2 =>
    rw [h2] at h
    obtain ⟨⟨rfl, rfl⟩, rfl⟩ : (m = m2 ∧ rest = rest2) ∧ evs = evs2 := by
      simpa using h.symm
    rfl

theorem module_finish_run_trace (l : List ModuleIf) :
    module_finish_run l
      = (l.filter fun m => m.module_fini).map (fun m => FiniEvent.fini_hook m.id)
        ++ [FiniEvent.final_cb] := by
  induction l with
  | nil => rw [module_finish_run_none (l := []) rfl]; rfl
  | cons m rest ih =>
    by_cases hf : m.module_fini
    · rw [module_finish_run_some (show module_finish_step (m :: rest)
          = (some (m, rest), [FiniEvent.fini_hook m.id]) from by
        simp [module_finish_step, hf])]
      simp [hf, ih]
    · have hstep : module_finish_step (m :: rest) = module_finish_step rest := by
        simp [module_finish_step, hf]
      have hrun : module_finish_run (m :: rest) = module_finish_run rest := by
        rcases h2 : module_finish_step rest with ⟨o, evs⟩
        cases o with
        | none => rw [module_finish_run_none (hstep.trans h2), module_finish_run_none h2]
        | some p =>
          rcases p with ⟨mm, rr⟩
          rw [module_finish_run_some (hstep.trans h2), module_finish_run_some h2]
      rw [hrun, ih]
      simp [hf]

/-- Claim C3: finalization invokes the registered modules' fini hooks
one at a time in registration order (modules without a hook are skipped
by an immediate synchronous re-advance), and the final completion
callback fires exactly once, after the last module has signaled
completion; with no modules it fires immediately. -/
theorem c3_finalization_sequential :
    (∀ mods : List ModuleIf,
      spdk_accel_engine_finish_trace mods
        = (mods.filter fun m => m.module_fini).map (fun m => FiniEvent.fini_hook m.id)
          ++ [FiniEvent.final_cb])
    ∧ (∀ mods : List ModuleIf,
        (spdk_accel_engine_finish_trace mods).count FiniEvent.final_cb = 1)
    ∧ (∀ mods : List ModuleIf,
        (spdk_accel_engine_finish_trace mods).getLast? = some FiniEvent.final_cb)
    ∧ spdk_accel_engine_finish_trace [] = [FiniEvent.final_cb] := by
  refine ⟨fun mods => module_finish_run_trace mods, fun mods => ?_, fun mods => ?_, ?_⟩
  · rw [spdk_accel_engine_finish_trace, module_finish_run_trace]
    rw [List.count_append]
    rw [List.count_eq_zero.mpr (by simp)]
    rfl
  · rw [spdk_accel_engine_finish_trace, module_finish_run_trace]
    exact List.getLast?_concat _
  · exact module_finish_run_trace []

theorem memcpy_in (m : Mem) (dst src n a : Nat) (h1 : dst ≤ a) (h2 : a < dst + n) :
    memcpy m dst src n a = m (src + (a - dst)) := if_pos ⟨h1, h2⟩

theorem memcpy_out (m : Mem) (dst src n a : Nat) (h : ¬(dst ≤ a ∧ a < dst + n)) :
    memcpy m dst src n a = m a := if_neg h

/-- Claim C7: after the software backend's copy, the first `n` bytes of
the destination equal the first `n` bytes of the source, and the source
buffer is unmodified, for non-overlapping buffers. -/
theorem c7_sw_copy (req : AccelTask) (mem : Mem) (dst src n cb : Nat)
    (hdisj : dst + n ≤ src ∨ src + n ≤ dst) :
    (∀ k, k < n →
      (spdk_accel_submit_copy sw_accel_engine req mem dst src n cb).1 (dst + k)
        = mem (src + k))
    ∧ (∀ k, k < n →
      (spdk_accel_submit_copy sw_accel_engine req mem dst src n cb).1 (src + k)
        = mem (src + k)) := by
  constructor
  · intro k hk
    show memcpy mem dst src n (dst + k) = mem (src + k)
    rw [memcpy_in mem dst src n (dst + k) (Nat.le_add_right dst k) (by omega)]
    congr 1
    omega
  · intro k hk
    show memcpy mem dst src n (src + k) = mem (src + k)
    exact memcpy_out mem dst src n (src + k) (by omega)

/-- Witness for C7: copying 3 bytes from address 0 to address 16. -/
theorem c7_sw_copy_witness :
    (∀ k, k < 3 →
      (spdk_accel_submit_copy sw_accel_engine ⟨0, 0⟩ (fun a => a % 256) 16 0 3 7).1 (16 + k)
        = (fun a => a % 256 : Mem) (0 + k))
    ∧ (∀ k, k < 3 →
      (spdk_accel_submit_copy sw_accel_engine ⟨0, 0⟩ (fun a => a % 256) 16 0 3 7).1 (0 + k)
        = (fun a => a % 256 : Mem) (0 + k)) :=
  c7_sw_copy ⟨0, 0⟩ (fun a => a % 256) 16 0 3 7 (by omega)

/-- Claim C4: dual-cast with both destinations 4K-aligned copies the
source's first `n` bytes into both destinations (software backend,
buffers pairwise disjoint); with a misaligned destination the submit
returns `-EINVAL` immediately, performs no data movement, mutates
neither destination, and invokes no completion callback. -/
theorem c4_dualcast (req : AccelTask) (mem : Mem) (dst1 dst2 src n cb : Nat) :
    (dst1 % ALIGN_4K = 0 → dst2 % ALIGN_4K = 0 →
      (dst1 + n ≤ src ∨ src + n ≤ dst1) →
      (dst2 + n ≤ src ∨ src + n ≤ dst2) →
      (dst1 + n ≤ dst2 ∨ dst2 + n ≤ dst1) →
      ∀ k, k < n →
        (spdk_accel_submit_dualcast sw_accel_engine req mem dst1 dst2 src n cb).1 (dst1 + k)
          = mem (src + k)
        ∧ (spdk_accel_submit_dualcast sw_accel_engine req mem dst1 dst2 src n cb).1 (dst2 + k)
          = mem (src + k))
    ∧ (¬(dst1 % ALIGN_4K = 0 ∧ dst2 % ALIGN_4K = 0) →
      spdk_accel_submit_dualcast sw_accel_engine req mem dst1 dst2 src n cb
        = (mem, [], -EINVAL)) := by
  constructor
  · intro h1 h2 hd1 hd2 hdd k hk
    have hguard : ¬(dst1 % ALIGN_4K ≠ 0 ∨ dst2 % ALIGN_4K ≠ 0) := by
      simp [h1, h2]
    have hres : (spdk_accel_submit_dualcast sw_accel_engine req mem dst1 dst2 src n cb).1
        = memcpy (memcpy mem dst1 src n) dst2 src n := by
      unfold spdk_accel_submit_dualcast
      rw [if_neg hguard]
      rfl
    rw [hres]
    constructor
    · rw [memcpy_out _ dst2 src n (dst1 + k) (by omega),
        memcpy_in mem dst1 src n (dst1 + k) (Nat.le_add_right dst1 k) (by omega)]
      congr 1
      omega
    · rw [memcpy_in _ dst2 src n (dst2 + k) (Nat.le_add_right dst2 k) (by omega),
        memcpy_out mem dst1 src n _ (by omega)]
      congr 1
      omega
  · intro hmis
    unfold spdk_accel_submit_dualcast
    rw [if_pos]
    omega

/-- Witness for C4: both branches at concrete inputs (aligned
destinations 4096 and 8192; misaligned destination 1). -/
theorem c4_dualcast_witness :
    (∀ k, k < 2 →
      (spdk_accel_submit_dualcast sw_accel_engine ⟨0, 0⟩ (fun a => a % 256) 4096 8192 0 2 7).1 (4096 + k)
        = (fun a => a % 256 : Mem) (0 + k)
      ∧ (spdk_accel_submit_dualcast sw_accel_engine ⟨0, 0⟩ (fun a => a % 256) 4096 8192 0 2 7).1 (8192 + k)
        = (fun a => a % 256 : Mem) (0 + k))
    ∧ spdk_accel_submit_dualcast sw_accel_engine ⟨0, 0⟩ (fun a => a % 256) 1 8192 0 2 7
        = ((fun a => a % 256 : Mem), [], -EINVAL) :=
  ⟨(c4_dualcast ⟨0, 0⟩ (fun a => a % 256) 4096 8192 0 2 7).1 (by decide) (by decide)
      (by omega) (by omega) (by omega),
   (c4_dualcast ⟨0, 0⟩ (fun a => a % 256) 1 8192 0 2 7).2 (by decide)⟩

theorem memcmpI_eq_zero_iff (m : Mem) : ∀ (n s1 s2 : Nat),
    memcmpI m s1 s2 n = 0 ↔ ∀ k, k < n → m (s1 + k) = m (s2 + k) := by
  intro n
  induction n with
  | zero => intro s1 s2; simp [memcmpI]
  | succ n ih =>
    intro s1 s2
    simp only [memcmpI]
    by_cases h1 : m s1 < m s2
    · rw [if_pos h1]
      constructor
      · intro h; exact absurd h (by decide)
      · intro hall
        exfalso
        have h0 := hall 0 (Nat.succ_pos n)
        simp at h0
        omega
    · rw [if_neg h1]
      by_cases h2 : m s2 < m s1
      · rw [if_pos h2]
        constructor
        · intro h; exact absurd h (by decide)
        · intro hall
          exfalso
          have h0 := hall 0 (Nat.succ_pos n)
          simp at h0
          omega
      · rw [if_neg h2]
        rw [ih (s1 + 1) (s2 + 1)]
        have heq : m s1 = m s2 := by omega
        constructor
        · intro hall k hk
          cases k with
          | zero => simpa using heq
          | succ k =>
            have hh := hall k (by omega)
            have e1 : s1 + 1 + k = s1 + (k + 1) := by omega
            have e2 : s2 + 1 + k = s2 + (k + 1) := by omega
            rwa [e1, e2] at hh
        · intro hall k hk
          have hh := hall (k + 1) (by omega)
          have e1 : s1 + 1 + k = s1 + (k + 1) := by omega
          have e2 : s2 + 1 + k = s2 + (k + 1) := by omega
          rw [e1, e2]
          exact hh

/-- Claim C5: the software backend's compare completes with status equal
to the three-way byte comparison of the two buffers: 0 exactly when the
first `n` bytes agree (hence comparing a buffer with itself gives 0,
and buffers differing only at byte `n - 1` give a nonzero status), and
it modifies no memory. -/
theorem c5_sw_compare (req : AccelTask) (mem : Mem) (s1 s2 n cb : Nat) :
    ((spdk_accel_submit_compare sw_accel_engine req mem s1 s2 n cb).1 = mem)
    ∧ ((spdk_accel_submit_compare sw_accel_engine req mem s1 s2 n cb).2.1
        = [⟨cb, { req with cb := cb }, memcmpI mem s1 s2 n⟩])
    ∧ (memcmpI mem s1 s2 n = 0 ↔ ∀ k, k < n → mem (s1 + k) = mem (s2 + k))
    ∧ (memcmpI mem s1 s1 n = 0)
    ∧ (0 < n → (∀ k, k < n - 1 → mem (s1 + k) = mem (s2 + k)) →
        mem (s1 + (n - 1)) ≠ mem (s2 + (n - 1)) → memcmpI mem s1 s2 n ≠ 0) := by
  refine ⟨rfl, rfl, memcmpI_eq_zero_iff mem n s1 s2, ?_, ?_⟩
  · exact (memcmpI_eq_zero_iff mem n s1 s1).mpr (fun k hk => rfl)
  · intro hn hbelow hlast hzero
    exact hlast ((memcmpI_eq_zero_iff mem n s1 s2).mp hzero (n - 1) (by omega))

/-- Witness for C5: buffers at 0 and 3 of length 3 differing only in
their last byte compare nonzero. -/
theorem c5_sw_compare_witness :
    memcmpI (fun a => if a = 2 then 1 else 0) 0 3 3 ≠ 0 :=
  (c5_sw_compare ⟨0, 0⟩ (fun a => if a = 2 then 1 else 0) 0 3 3 7).2.2.2.2
    (by decide) (by decide) (by decide)

theorem spdk_crc32c_update_congr : ∀ (n : Nat) (m1 m2 : Mem) (src crc : Nat),
    (∀ k, k < n → m1 (src + k) = m2 (src + k)) →
    spdk_crc32c_update m1 src n crc = spdk_crc32c_update m2 src n crc := by
  intro n
  induction n with
  | zero => intro m1 m2 src crc h; rfl
  | succ n ih =>
    intro m1 m2 src crc h
    simp only [spdk_crc32c_update]
    rw [show m1 src = m2 src from by simpa using h 0 (Nat.succ_pos n)]
    exact ih m1 m2 (src + 1) _ (fun k hk => by
      have hh := h (k + 1) (by omega)
      have e : src + 1 + k = src + (k + 1) := by omega
      rw [e]
      exact hh)

/-- Claim C6: the software backend's crc32c writes to the output cell
the CRC32C of the first `n` source bytes started from the bitwise
complement of the caller's seed, completes with status 0 and returns 0;
the written value depends only on (source bytes, seed, n). -/
theorem c6_sw_crc32c (req : AccelTask) (words : Nat → Nat) (mem : Mem)
    (dst src seed n cb : Nat) :
    ((spdk_accel_submit_crc32c sw_accel_engine req words mem dst src seed n cb).1 dst
        = spdk_crc32c_update mem src n (complement32 seed))
    ∧ ((spdk_accel_submit_crc32c sw_accel_engine req words mem dst src seed n cb).2.1
        = [⟨cb, { req with cb := cb }, 0⟩])
    ∧ ((spdk_accel_submit_crc32c sw_accel_engine req words mem dst src seed n cb).2.2 = 0)
    ∧ (∀ mem2 : Mem, (∀ k, k < n → mem (src + k) = mem2 (src + k)) →
        (spdk_accel_submit_crc32c sw_accel_engine req words mem dst src seed n cb).1 dst
          = (spdk_accel_submit_crc32c sw_accel_engine req words mem2 dst src seed n cb).1 dst) := by
  refine ⟨?_, rfl, rfl, ?_⟩
  · simp [spdk_accel_submit_crc32c, sw_accel_engine, sw_accel_submit_crc32c]
  · intro mem2 hag
    show (if dst = dst then spdk_crc32c_update mem src n (complement32 seed) else words dst)
      = (if dst = dst then spdk_crc32c_update mem2 src n (complement32 seed) else words dst)
    rw [if_pos rfl, if_pos rfl]
    exact spdk_crc32c_update_congr n mem mem2 src _ hag

/-- Witness for C6: two memories agreeing on the two source bytes give
the same written checksum. -/
theorem c6_sw_crc32c_witness :
    (spdk_accel_submit_crc32c sw_accel_engine ⟨0, 0⟩ (fun _ => 0) (fun a => a) 10 0 5 2 7).1 10
      = (spdk_accel_submit_crc32c sw_accel_engine ⟨0, 0⟩ (fun _ => 0)
          (fun a => if a < 2 then a else 99) 10 0 5 2 7).1 10 :=
  (c6_sw_crc32c ⟨0, 0⟩ (fun _ => 0) (fun a => a) 10 0 5 2 7).2.2.2
    (fun a => if a < 2 then a else 99) (by decide)

/-- Claim C2: channel creation binds to the hardware backend exactly
when a hardware backend is active and its channel request returns
non-null, and otherwise binds to the software backend (a registered
software backend with a non-null channel being the precondition); the
per-thread binding, once created, is returned unchanged by every later
get_channel call, whatever the global slots have become in the
meantime — in particular after a hardware backend registers later. -/
theorem c2_channel_binding :
    (∀ (hw sw : Option EngineRef) (h : EngineRef) (ch : Nat),
      hw = some h → h.get_io_channel = some ch →
      accel_engine_create_cb hw sw = some ⟨h, ch⟩)
    ∧ (∀ (h sw : EngineRef) (swch : Nat),
      h.get_io_channel = none → sw.get_io_channel = some swch →
      accel_engine_create_cb (some h) (some sw) = some ⟨sw, swch⟩)
    ∧ (∀ (sw : EngineRef) (swch : Nat),
      sw.get_io_channel = some swch →
      accel_engine_create_cb none (some sw) = some ⟨sw, swch⟩)
    ∧ (∀ (st : ThreadChannelState) (chn : accel_io_channel) (g_hw g_sw : Option EngineRef),
      st.cached = some chn → get_channel st g_hw g_sw = some (st, chn))
    ∧ (∀ (g_hw g_sw g_hw2 g_sw2 : Option EngineRef) (st2 : ThreadChannelState)
        (chn : accel_io_channel),
      get_channel ⟨none⟩ g_hw g_sw = some (st2, chn) →
      get_channel st2 g_hw2 g_sw2 = some (st2, chn)) := by
  refine ⟨?_, ?_, ?_, ?_, ?_⟩
  · intro hw sw h ch hhw hch
    subst hhw
    simp [accel_engine_create_cb, hch]
  · intro h sw swch hh hsw
    simp [accel_engine_create_cb, accel_engine_create_sw_path, hh, hsw]
  · intro sw swch hsw
    simp [accel_engine_create_cb, accel_engine_create_sw_path, hsw]
  · intro st chn g_hw g_sw hc
    simp [get_channel, hc]
  · intro g_hw g_sw g_hw2 g_sw2 st2 chn h
    rcases hc : accel_engine_create_cb g_hw g_sw with _ | ch
    · rw [show get_channel ⟨none⟩ g_hw g_sw = none from by simp [get_channel, hc]] at h
      cases h
    · rw [show get_channel ⟨none⟩ g_hw g_sw = some (⟨some ch⟩, ch) from by
        simp [get_channel, hc]] at h
      simp only [Option.some.injEq, Prod.mk.injEq] at h
      obtain ⟨rfl, rfl⟩ := h
      simp [get_channel]

/-- Witness for C2: a hardware backend whose channel request succeeds
wins the binding. -/
theorem c2_channel_binding_witness :
    accel_engine_create_cb (some ⟨1, some 42⟩) (some ⟨2, some 43⟩) = some ⟨⟨1, some 42⟩, 42⟩ :=
  c2_channel_binding.1 (some ⟨1, some 42⟩) (some ⟨2, some 43⟩) ⟨1, some 42⟩ 42 rfl rfl
